import Mathlib

/-!
Shallow embedding of the mmlog crate (src/lib.rs): a memory-mapped circular
log buffer. The mapped region is a header (one machine word holding the next
write offset) followed by a payload ring of `cap` bytes. We model the payload
as a total function `Nat → Nat` (byte at each ring position; only positions
below `cap` are meaningful), a message as its length together with a byte
function, and each fallible or panicking operation as `Option`.
-/

namespace Mmlog

/-- Severity levels of the `log` crate, in its declaration order
(`Error = 1` through `Trace = 5`); smaller means more severe. -/
inductive LogLevel where
  | error
  | warn
  | info
  | debug
  | trace
deriving DecidableEq

/-- Numeric value of a level, matching the `log` crate discriminants. -/
def LogLevel.toNat : LogLevel → Nat
  | .error => 1
  | .warn => 2
  | .info => 3
  | .debug => 4
  | .trace => 5

/-- Embeds `level_info` (src/lib.rs:31): the one-letter tag of a level. -/
def level_info : LogLevel → List Char
  | .error => ['E']
  | .warn => ['W']
  | .info => ['I']
  | .debug => ['D']
  | .trace => ['T']

/-- A formatted message: `len` bytes, byte `i` being `byte i`.
Mirrors the `source: &[u8]` slice in `Log::log`. -/
structure Msg where
  len : Nat
  byte : Nat → Nat

/-- The mapped region as seen through a `Logger` handle: `cap` is
`self.size()` (file size minus the header), `offset` the header word,
`payload` the ring bytes (`as_slice` past the header). -/
structure LoggerState where
  cap : Nat
  offset : Nat
  payload : Nat → Nat

/-- One Rust slice write `(&mut dst[start..start+n]).write(src)`:
positions `start ≤ p < start + n` receive `src (p - start)`, the rest of
`dst` is untouched. -/
def writeRange (dst : Nat → Nat) (start n : Nat) (src : Nat → Nat) : Nat → Nat :=
  fun p => if start ≤ p ∧ p < start + n then src (p - start) else dst p

/-- Embeds `Logger::set_offset` (src/lib.rs:212): stores a new header
offset; `assert!(new <= self.size - HEADER_SIZE)` makes an out-of-range
value a panic, modelled as `none`. -/
def set_offset (st : LoggerState) (new : Nat) : Option LoggerState :=
  if new ≤ st.cap then some { st with offset := new } else none

/-- Embeds the critical section of `Log::log` (src/lib.rs:264-285), after
formatting and under the spin lock. No-wrap branch
(`offset + source.len() <= self.size()`): one slice write of `len` bytes at
`offset`, then `set_offset (offset + len)`. Wrap branch: the slice
expression `self.as_mut_slice()[offset..]` panics when `offset > cap`
(`none`); otherwise `Write::write` copies `n = cap - offset` bytes, then
`left = (len - n) % cap` (a Rust panic when `cap = 0`, modelled as `none`)
bytes of the tail `source[len - left..]` go to position 0, then
`set_offset left`. -/
def writeBytes (st : LoggerState) (m : Msg) : Option LoggerState :=
  if st.offset + m.len ≤ st.cap then
    set_offset
      { st with payload := writeRange st.payload st.offset m.len m.byte }
      (st.offset + m.len)
  else if st.cap < st.offset ∨ st.cap = 0 then none
  else
    set_offset
      { st with payload := writeRange (writeRange st.payload st.offset (st.cap - st.offset) m.byte) 0 ((m.len - (st.cap - st.offset)) % st.cap) (fun i => m.byte (m.len - (m.len - (st.cap - st.offset)) % st.cap + i)) }
      ((m.len - (st.cap - st.offset)) % st.cap)

/-- Embeds `Log::enabled` (src/lib.rs:233): `metadata.level() <= self.level`
in the `log` crate order. -/
def enabled (l threshold : LogLevel) : Bool :=
  l.toNat ≤ threshold.toNat

/-- Embeds `Log::log` (src/lib.rs:237): formatting and the ring write run
only when the record is enabled; otherwise the call returns with the state
untouched. -/
def logStep (st : LoggerState) (l threshold : LogLevel) (m : Msg) :
    Option LoggerState :=
  if enabled l threshold then writeBytes st m else some st

/-- Embeds `Builder::MIN_SIZE` (src/lib.rs:84): `512 * KB`. -/
def MIN_SIZE : Nat := 512 * 1024

/-- Builder configuration (src/lib.rs:77). -/
structure Builder where
  size : Nat
  level : LogLevel
  sync : Bool

/-- Embeds `Builder::new` (src/lib.rs:86). -/
def Builder.new : Builder :=
  { size := MIN_SIZE, level := .info, sync := false }

/-- Embeds `Builder::make_sense` (src/lib.rs:109): clamp the size up to
`MIN_SIZE`. -/
def make_sense (b : Builder) : Builder :=
  if b.size < MIN_SIZE then { b with size := MIN_SIZE } else b

/-- Running a list of enabled writes in submission order (each call to
`Log::log` holds the spin lock for its whole critical section, so a
single-threaded sequence is just function composition). -/
def runWrites (st : LoggerState) : List Msg → Option LoggerState
  | [] => some st
  | m :: ms => (writeBytes st m).bind (fun st1 => runWrites st1 ms)

/-- Concatenation of formatted messages: total length and byte function. -/
def catMsg : List Msg → Msg
  | [] => ⟨0, fun _ => 0⟩
  | m :: ms =>
      ⟨m.len + (catMsg ms).len,
       fun p => if p < m.len then m.byte p else (catMsg ms).byte (p - m.len)⟩

/-- Decimal digits of a number, for the `file:line` field. -/
def natChars (n : Nat) : List Char :=
  Nat.toDigits 10 n

/-- Embeds the `file:line-or-empty` field of `Log::log` (src/lib.rs:248):
`record.file()` and `record.line()` are both present, giving
`file:line`, or the field is the empty string. -/
def filelineOf (file : Option (List Char)) (line : Option Nat) : List Char :=
  match file with
  | none => []
  | some f =>
      match line with
      | none => []
      | some nb => f ++ [':'] ++ natChars nb

/-- Embeds the `format!` template of `Log::log` (src/lib.rs:241-255):
the literal text of the template string with the six fields spliced in. -/
def formatCore (dur tid tag fileline target msg : List Char) : List Char :=
  (['['] ++ dur ++ [' '] ++ tid ++ [' '] ++ tag ++ [' '] ++ fileline ++
    [' '] ++ target ++ [']', ' ']) ++ msg

/-- Embeds the newline fix-up of `Log::log` (src/lib.rs:257-259): append a
newline when the formatted string does not already end with one. -/
def ensureNewline (s : List Char) : List Char :=
  if s.getLast? = some '\n' then s else s ++ ['\n']

/-- Embeds the full record formatting of `Log::log`: the template applied
to the record fields, then the newline fix-up. -/
def formatRecord (dur tid fileline target msg : List Char) (l : LogLevel) :
    List Char :=
  ensureNewline (formatCore dur tid (level_info l) fileline target msg)

/-- Written from the record format string of the spec, for comparison with
`formatRecord`: the byte sequence
`[<duration-since-epoch>] <thread-id> <level-tag> <file:line-or-empty>
<target>] <message>` with a trailing newline appended only if the message
does not already end with one. -/
def specFormatRecord (dur tid fileline target msg : List Char)
    (l : LogLevel) : List Char :=
  ['['] ++ dur ++ [']', ' '] ++ tid ++ [' '] ++ level_info l ++ [' '] ++
    fileline ++ [' '] ++ target ++ [']', ' '] ++ msg ++
    (if msg.getLast? = some '\n' then [] else ['\n'])

/-- The backing file, abstracted to the header word it stores, its payload
bytes and its payload capacity (file size minus the header word). -/
structure FileImage where
  hdr : Nat
  byte : Nat → Nat
  cap : Nat

/-- POSIX `ftruncate` on the payload view of a file: resizing to payload
capacity `c` keeps the bytes below both capacities and zero-fills any
extension; the header word survives (both sizes include the header). -/
def truncateImage (f : FileImage) (c : Nat) : FileImage :=
  ⟨f.hdr, fun p => if p < f.cap ∧ p < c then f.byte p else 0, c⟩

/-- Embeds `Logger::open_inner` in Reopen mode (`Logger::open`,
src/lib.rs:151): open the existing file without `O_TRUNC`, `ftruncate` it
to `size + HEADER_SIZE`, map it; the mapped state exposes whatever header
offset and payload bytes the file holds, with no validation of the offset.
The mmap and read syscall semantics are modelled per POSIX. -/
def open_inner_reopen (f : FileImage) (size : Nat) : LoggerState :=
  let t := truncateImage f size
  ⟨size, t.hdr, t.byte⟩

/-- Embeds `Logger::new` (Create mode, src/lib.rs:139): `O_CREAT | O_TRUNC`
empties the file, `ftruncate` zero-extends it, and `set_offset(0)` resets
the header. -/
def open_inner_create (size : Nat) : LoggerState :=
  ⟨size, 0, fun _ => 0⟩

/-- Embeds `Drop for Logger` (src/lib.rs:223): flush (`msync`, which makes
the `MAP_SHARED` mapping durable without changing its bytes) then `munmap`;
the file afterwards holds exactly the mapped header and payload. -/
def closeLogger (st : LoggerState) : FileImage :=
  ⟨st.offset, st.payload, st.cap⟩

/-- Embeds `Builder::open` (src/lib.rs:120): `make_sense` then Reopen mode
with the clamped size. -/
def builderOpen (b : Builder) (f : FileImage) : LoggerState :=
  open_inner_reopen f (make_sense b).size

/-- Embeds `Builder::build` (src/lib.rs:115): `make_sense` then Create mode
with the clamped size. -/
def builderBuild (b : Builder) : LoggerState :=
  open_inner_create (make_sense b).size

/-! Helper lemmas characterising the three control paths of `writeBytes`. -/

/-- No-wrap branch of `Log::log`: one slice write, offset advanced by the
message length. -/
theorem writeBytes_nowrap (st : LoggerState) (m : Msg)
    (h1 : st.offset + m.len ≤ st.cap) :
    writeBytes st m =
      some ⟨st.cap, st.offset + m.len, writeRange st.payload st.offset m.len m.byte⟩ := by
  unfold writeBytes set_offset
  rw [if_pos h1, if_pos h1]

/-- Wrap branch of `Log::log` from a valid state: tail slice write at the
current offset, head slice write at position 0, offset set to the reduced
remainder. -/
theorem writeBytes_wrap (st : LoggerState) (m : Msg)
    (hoff : st.offset ≤ st.cap) (hcap : 0 < st.cap)
    (hwrap : st.cap < st.offset + m.len) :
    writeBytes st m =
      some ⟨st.cap, (m.len - (st.cap - st.offset)) % st.cap,
        writeRange (writeRange st.payload st.offset (st.cap - st.offset) m.byte) 0
          ((m.len - (st.cap - st.offset)) % st.cap)
          (fun i => m.byte (m.len - (m.len - (st.cap - st.offset)) % st.cap + i))⟩ := by
  unfold writeBytes set_offset
  rw [if_neg (by omega), if_neg (by omega),
    if_pos (Nat.le_of_lt (Nat.mod_lt _ hcap))]

/-- Wrap branch of `Log::log` from a corrupted state: when the stored
offset exceeds the capacity, the slice expression
`self.as_mut_slice()[offset..]` is out of bounds and the call panics. -/
theorem writeBytes_panic (st : LoggerState) (m : Msg)
    (hbad : st.cap < st.offset) :
    writeBytes st m = none := by
  unfold writeBytes
  rw [if_neg (by omega), if_pos (Or.inl hbad)]

/-- From any valid state with a positive capacity, `Log::log` completes
without a panic. -/
theorem writeBytes_total (st : LoggerState) (m : Msg)
    (hoff : st.offset ≤ st.cap) (hcap : 0 < st.cap) :
    (writeBytes st m).isSome = true := by
  by_cases h1 : st.offset + m.len ≤ st.cap
  · rw [writeBytes_nowrap st m h1]; rfl
  · rw [writeBytes_wrap st m hoff hcap (by omega)]; rfl

/-- Last element of an append with a nonempty right part. -/
theorem getLast?_append_right (a b : List Char) (h : b ≠ []) :
    (a ++ b).getLast? = b.getLast? :=
  List.getLast?_append_of_ne_nil a h

/-- A position inside the written range holds the corresponding source
byte. -/
theorem writeRange_in (dst : Nat → Nat) (start n : Nat) (src : Nat → Nat)
    (p : Nat) (h1 : start ≤ p) (h2 : p < start + n) :
    writeRange dst start n src p = src (p - start) :=
  if_pos ⟨h1, h2⟩

/-- A position outside the written range is untouched. -/
theorem writeRange_out (dst : Nat → Nat) (start n : Nat) (src : Nat → Nat)
    (p : Nat) (h : ¬(start ≤ p ∧ p < start + n)) :
    writeRange dst start n src p = dst p :=
  if_neg h

/-- Claim C9: the Builder clamps the payload capacity up to the 512 KiB
minimum before construction — a smaller request is silently replaced by
`MIN_SIZE`, a request of at least `MIN_SIZE` is used unchanged, and both
the build (Create) and open (Reopen) paths construct the logger with the
clamped size. -/
theorem C9_builder_min_size_clamp (s : Nat) (l : LogLevel) (sy : Bool) :
    (s < MIN_SIZE → (make_sense ⟨s, l, sy⟩).size = MIN_SIZE) ∧
    (MIN_SIZE ≤ s → (make_sense ⟨s, l, sy⟩).size = s) ∧
    (builderBuild ⟨s, l, sy⟩).cap = (make_sense ⟨s, l, sy⟩).size ∧
    (∀ f : FileImage, (builderOpen ⟨s, l, sy⟩ f).cap = (make_sense ⟨s, l, sy⟩).size) := by
  refine ⟨fun h => ?_, fun h => ?_, rfl, fun f => rfl⟩
  · unfold make_sense
    rw [if_pos h]
  · unfold make_sense
    rw [if_neg (by exact Nat.not_lt.mpr h)]

/-- Witness for C9 at requested sizes 1024 (clamped) and 524295 (kept). -/
theorem C9_builder_min_size_clamp_witness :
    (1024 < MIN_SIZE ∧ (make_sense ⟨1024, .info, false⟩).size = MIN_SIZE) ∧
    (MIN_SIZE ≤ 524295 ∧ (make_sense ⟨524295, .info, false⟩).size = 524295) :=
  ⟨⟨by decide, (C9_builder_min_size_clamp 1024 .info false).1 (by decide)⟩,
   ⟨by decide, (C9_builder_min_size_clamp 524295 .info false).2.1 (by decide)⟩⟩

/-- Claim C5: a record whose severity is coarser (numerically larger in
the log-crate order) than the configured threshold is rejected by
`enabled`, and `Log::log` returns with the state untouched — no payload
byte changes and the offset is unchanged. The check is the first thing
`log` does, before the message is formatted. -/
theorem C5_severity_filter (st : LoggerState) (l threshold : LogLevel)
    (m : Msg) (h : threshold.toNat < l.toNat) :
    enabled l threshold = false ∧ logStep st l threshold m = some st := by
  have hen : enabled l threshold = false := by
    unfold enabled
    simp only [decide_eq_false_iff_not]
    omega
  refine ⟨hen, ?_⟩
  unfold logStep
  rw [hen]
  rfl

/-- Witness for C5: a Debug record against an Info threshold on a fresh
default-size logger. -/
theorem C5_severity_filter_witness :
    LogLevel.info.toNat < LogLevel.debug.toNat ∧
    enabled .debug .info = false ∧
    logStep ⟨524288, 0, fun _ => 0⟩ .debug .info ⟨3, fun _ => 7⟩ =
      some ⟨524288, 0, fun _ => 0⟩ :=
  ⟨by decide, C5_severity_filter ⟨524288, 0, fun _ => 0⟩ .debug .info ⟨3, fun _ => 7⟩ (by decide)⟩

/-- Claim C4: the header offset invariant `0 ≤ offset ≤ payload_capacity`
is preserved by the write operation — from any in-bounds state both
branches store an in-bounds offset and the write completes — and
`set_offset` makes an out-of-bounds store a fatal assertion failure
(`none`), while an in-bounds store succeeds. -/
theorem C4_offset_invariant (st : LoggerState) (m : Msg) (new : Nat)
    (hoff : st.offset ≤ st.cap) (hcap : 0 < st.cap) :
    (∃ st1, writeBytes st m = some st1 ∧ st1.offset ≤ st1.cap ∧ st1.cap = st.cap) ∧
    (st.cap < new → set_offset st new = none) ∧
    (new ≤ st.cap → set_offset st new = some { st with offset := new }) := by
  refine ⟨?_, fun hgt => ?_, fun hle => ?_⟩
  · by_cases h1 : st.offset + m.len ≤ st.cap
    · exact ⟨_, writeBytes_nowrap st m h1, h1, rfl⟩
    · exact ⟨_, writeBytes_wrap st m hoff hcap (by omega),
        Nat.le_of_lt (Nat.mod_lt _ hcap), rfl⟩
  · unfold set_offset
    rw [if_neg (by omega)]
  · unfold set_offset
    rw [if_pos hle]

/-- Witness for C4 on a default-size logger: a small write keeps the
offset in bounds, storing 524289 is fatal, storing 524288 succeeds. -/
theorem C4_offset_invariant_witness :
    (0 ≤ 524288 ∧ 0 < 524288) ∧
    (∃ st1, writeBytes ⟨524288, 0, fun _ => 0⟩ ⟨5, fun _ => 65⟩ = some st1 ∧
      st1.offset ≤ st1.cap ∧ st1.cap = 524288) ∧
    set_offset ⟨524288, 0, fun _ => 0⟩ 524289 = none ∧
    set_offset ⟨524288, 0, fun _ => 0⟩ 524288 = some ⟨524288, 524288, fun _ => 0⟩ :=
  ⟨⟨by decide, by decide⟩,
   (C4_offset_invariant ⟨524288, 0, fun _ => 0⟩ ⟨5, fun _ => 65⟩ 524289
      (by decide) (by decide)).1,
   (C4_offset_invariant ⟨524288, 0, fun _ => 0⟩ ⟨5, fun _ => 65⟩ 524289
      (by decide) (by decide)).2.1 (by decide),
   (C4_offset_invariant ⟨524288, 0, fun _ => 0⟩ ⟨5, fun _ => 65⟩ 524288
      (by decide) (by decide)).2.2 (by decide)⟩

/-- Claim C10: Reopen mode exposes the stored header offset with no
validation against the configured capacity; the write path is panic-free
exactly under the precondition `offset ≤ cap` (with positive capacity),
and when a reopened file's stored offset exceeds the configured capacity
the next enabled write hits an out-of-bounds slice index and panics
(`none`) instead of returning a recoverable error. -/
theorem C10_reopen_offset_unvalidated (f : FileImage) (size : Nat) (m : Msg)
    (l threshold : LogLevel)
    (hbad : size < f.hdr) (hen : enabled l threshold = true) :
    (open_inner_reopen f size).offset = f.hdr ∧
    logStep (open_inner_reopen f size) l threshold m = none ∧
    (∀ st : LoggerState, st.offset ≤ st.cap → 0 < st.cap →
      (writeBytes st m).isSome = true) := by
  refine ⟨rfl, ?_, fun st hoff hcap => writeBytes_total st m hoff hcap⟩
  unfold logStep
  rw [hen]
  exact writeBytes_panic _ m hbad

/-- Witness for C10: a file written under capacity 1048576 with stored
offset 600000, reopened at the default capacity 524288; the next enabled
Info write panics. -/
theorem C10_reopen_offset_unvalidated_witness :
    524288 < 600000 ∧ enabled .info .info = true ∧
    (open_inner_reopen ⟨600000, fun _ => 0, 1048576⟩ 524288).offset = 600000 ∧
    logStep (open_inner_reopen ⟨600000, fun _ => 0, 1048576⟩ 524288) .info .info
      ⟨5, fun _ => 65⟩ = none :=
  ⟨by decide, by decide,
   ((C10_reopen_offset_unvalidated ⟨600000, fun _ => 0, 1048576⟩ 524288
      ⟨5, fun _ => 65⟩ .info .info (by decide) (by decide)).1),
   ((C10_reopen_offset_unvalidated ⟨600000, fun _ => 0, 1048576⟩ 524288
      ⟨5, fun _ => 65⟩ .info .info (by decide) (by decide)).2.1)⟩

/-- Claim C1: a wrapping write (current offset `o` plus message length
`len` exceeding the capacity `cap`, from a valid state) fills the ring's
end — surviving positions `p` with `o ≤ p < cap` hold message byte
`p - o` — writes the message's last `(len - (cap - o)) % cap` bytes at
payload positions `0, 1, ...`, leaves other earlier positions unchanged,
and stores `(len - (cap - o)) % cap` as the new header offset. -/
theorem C1_wrap_write (st : LoggerState) (m : Msg)
    (hoff : st.offset ≤ st.cap) (hcap : 0 < st.cap)
    (hwrap : st.cap < st.offset + m.len) :
    ∃ st1, writeBytes st m = some st1 ∧
      st1.offset = (m.len - (st.cap - st.offset)) % st.cap ∧
      (∀ p, p < (m.len - (st.cap - st.offset)) % st.cap →
        st1.payload p =
          m.byte (m.len - (m.len - (st.cap - st.offset)) % st.cap + p)) ∧
      (∀ p, (m.len - (st.cap - st.offset)) % st.cap ≤ p → st.offset ≤ p →
        p < st.cap → st1.payload p = m.byte (p - st.offset)) ∧
      (∀ p, (m.len - (st.cap - st.offset)) % st.cap ≤ p → p < st.offset →
        st1.payload p = st.payload p) := by
  refine ⟨_, writeBytes_wrap st m hoff hcap hwrap, rfl, ?_, ?_, ?_⟩
  · intro p hp
    exact writeRange_in (writeRange st.payload st.offset (st.cap - st.offset) m.byte) 0
      ((m.len - (st.cap - st.offset)) % st.cap)
      (fun i => m.byte (m.len - (m.len - (st.cap - st.offset)) % st.cap + i)) p
      (Nat.zero_le p) (by omega)
  · intro p hleft hlo hhi
    exact (writeRange_out (writeRange st.payload st.offset (st.cap - st.offset) m.byte) 0
      ((m.len - (st.cap - st.offset)) % st.cap)
      (fun i => m.byte (m.len - (m.len - (st.cap - st.offset)) % st.cap + i)) p
      (by omega)).trans
      (writeRange_in st.payload st.offset (st.cap - st.offset) m.byte p hlo (by omega))
  · intro p hleft hlt
    exact (writeRange_out (writeRange st.payload st.offset (st.cap - st.offset) m.byte) 0
      ((m.len - (st.cap - st.offset)) % st.cap)
      (fun i => m.byte (m.len - (m.len - (st.cap - st.offset)) % st.cap + i)) p
      (by omega)).trans
      (writeRange_out st.payload st.offset (st.cap - st.offset) m.byte p (by omega))

/-- Witness for C1: a 2-byte message written at offset 524287 of a
default-size ring wraps, leaving 1 byte at the end and 1 byte at
position 0, with the new offset 1. -/
theorem C1_wrap_write_witness :
    524287 ≤ 524288 ∧ 0 < 524288 ∧ 524288 < 524287 + 2 ∧
    (∃ st1, writeBytes ⟨524288, 524287, fun _ => 0⟩ ⟨2, fun i => 10 + i⟩ = some st1 ∧
      st1.offset = (2 - (524288 - 524287)) % 524288 ∧
      (∀ p, p < (2 - (524288 - 524287)) % 524288 →
        st1.payload p =
          (⟨2, fun i => 10 + i⟩ : Msg).byte (2 - (2 - (524288 - 524287)) % 524288 + p)) ∧
      (∀ p, (2 - (524288 - 524287)) % 524288 ≤ p → 524287 ≤ p → p < 524288 →
        st1.payload p = (⟨2, fun i => 10 + i⟩ : Msg).byte (p - 524287)) ∧
      (∀ p, (2 - (524288 - 524287)) % 524288 ≤ p → p < 524287 →
        st1.payload p = 0)) :=
  ⟨by decide, by decide, by decide,
   C1_wrap_write ⟨524288, 524287, fun _ => 0⟩ ⟨2, fun i => 10 + i⟩
     (by decide) (by decide) (by decide)⟩

/-- Claim C7: closing a handle (flush and unmap, leaving the file with
exactly the mapped header and payload) and reopening the same file in
Reopen mode with the same configured size opens it without truncation and
preserves the stored header offset and every payload byte. -/
theorem C7_reopen_preserves (st : LoggerState) (b : Builder)
    (hsize : (make_sense b).size = st.cap) :
    (builderOpen b (closeLogger st)).cap = st.cap ∧
    (builderOpen b (closeLogger st)).offset = st.offset ∧
    (∀ p, p < st.cap → (builderOpen b (closeLogger st)).payload p = st.payload p) := by
  unfold builderOpen open_inner_reopen truncateImage closeLogger
  rw [hsize]
  refine ⟨rfl, rfl, fun p hp => ?_⟩
  exact if_pos ⟨hp, hp⟩

/-- Witness for C7: a default-size handle at offset 3 with payload byte 9
everywhere survives a close and reopen intact. -/
theorem C7_reopen_preserves_witness :
    (make_sense ⟨524288, .info, false⟩).size = 524288 ∧
    (builderOpen ⟨524288, .info, false⟩ (closeLogger ⟨524288, 3, fun _ => 9⟩)).cap = 524288 ∧
    (builderOpen ⟨524288, .info, false⟩ (closeLogger ⟨524288, 3, fun _ => 9⟩)).offset = 3 ∧
    (∀ p, p < 524288 →
      (builderOpen ⟨524288, .info, false⟩ (closeLogger ⟨524288, 3, fun _ => 9⟩)).payload p = 9) :=
  ⟨by decide,
   (C7_reopen_preserves ⟨524288, 3, fun _ => 9⟩ ⟨524288, .info, false⟩ (by decide)).1,
   (C7_reopen_preserves ⟨524288, 3, fun _ => 9⟩ ⟨524288, .info, false⟩ (by decide)).2.1,
   (C7_reopen_preserves ⟨524288, 3, fun _ => 9⟩ ⟨524288, .info, false⟩ (by decide)).2.2⟩

/-- Sequential no-wrap runs: as long as the pending messages fit between
the current offset and the capacity, running them appends their bytes in
order and advances the offset by the total length, leaving earlier bytes
untouched. -/
theorem runWrites_fit (ms : List Msg) : ∀ (c o : Nat) (f : Nat → Nat),
    o + (catMsg ms).len ≤ c →
    ∃ st1, runWrites ⟨c, o, f⟩ ms = some st1 ∧ st1.cap = c ∧
      st1.offset = o + (catMsg ms).len ∧
      (∀ p, o ≤ p → p < o + (catMsg ms).len →
        st1.payload p = (catMsg ms).byte (p - o)) ∧
      (∀ p, p < o → st1.payload p = f p) := by
  induction ms with
  | nil =>
    intro c o f h
    exact ⟨⟨c, o, f⟩, rfl, rfl, rfl,
      fun p hp hlt => absurd hlt (by simp only [catMsg]; omega),
      fun p hp => rfl⟩
  | cons m ms ih =>
    intro c o f h
    simp only [catMsg] at h
    have h1 : o + m.len ≤ c := by omega
    obtain ⟨st2, hrun, hcap2, hoff2, hin2, hfr2⟩ :=
      ih c (o + m.len) (writeRange f o m.len m.byte) (by omega)
    refine ⟨st2, ?_, hcap2, ?_, ?_, ?_⟩
    · simp only [runWrites]
      rw [writeBytes_nowrap ⟨c, o, f⟩ m h1]
      exact hrun
    · simp only [catMsg]
      omega
    · intro p hp hlt
      simp only [catMsg] at hlt ⊢
      by_cases hcase : p < o + m.len
      · rw [hfr2 p hcase,
          writeRange_in f o m.len m.byte p hp hcase,
          if_pos (by omega)]
      · rw [hin2 p (by omega) (by omega), if_neg (by omega), Nat.sub_sub]
    · intro p hp
      rw [hfr2 p (by omega)]
      exact writeRange_out f o m.len m.byte p (by omega)

/-- Claim C2: from a freshly created logger, any sequence of enabled
single-threaded writes whose total formatted length fits in the payload
capacity leaves the first bytes of the payload region equal to the
concatenation of the messages in submission order, with the header offset
equal to the total length; in particular each no-wrap write stores its
`len` bytes at the current offset `o`, leaves all other bytes untouched,
and sets the offset to `o + len`; an enabled record always reaches the
byte-writing critical section. -/
theorem C2_sequential_writes (b : Builder) (ms : List Msg)
    (h : (catMsg ms).len ≤ (builderBuild b).cap) :
    (∃ st1, runWrites (builderBuild b) ms = some st1 ∧
      st1.offset = (catMsg ms).len ∧
      (∀ p, p < (catMsg ms).len → st1.payload p = (catMsg ms).byte p)) ∧
    (∀ (st : LoggerState) (m : Msg), st.offset + m.len ≤ st.cap →
      ∃ st1, writeBytes st m = some st1 ∧ st1.offset = st.offset + m.len ∧
        (∀ p, st.offset ≤ p → p < st.offset + m.len →
          st1.payload p = m.byte (p - st.offset)) ∧
        (∀ p, ¬(st.offset ≤ p ∧ p < st.offset + m.len) →
          st1.payload p = st.payload p)) ∧
    (∀ (st : LoggerState) (l threshold : LogLevel) (m : Msg),
      enabled l threshold = true → logStep st l threshold m = writeBytes st m) := by
  refine ⟨?_, ?_, ?_⟩
  · have hc : (builderBuild b).cap = (make_sense b).size := rfl
    obtain ⟨st1, hrun, hcap1, hoff1, hin1, hfr1⟩ :=
      runWrites_fit ms (make_sense b).size 0 (fun _ => 0)
        (by rw [hc] at h; omega)
    refine ⟨st1, hrun, by omega, fun p hp => ?_⟩
    have := hin1 p (Nat.zero_le p) (by omega)
    rwa [Nat.sub_zero] at this
  · intro st m h1
    refine ⟨_, writeBytes_nowrap st m h1, rfl, ?_, ?_⟩
    · intro p hp hlt
      exact writeRange_in st.payload st.offset m.len m.byte p hp hlt
    · intro p hnp
      exact writeRange_out st.payload st.offset m.len m.byte p hnp
  · intro st l threshold m hen
    unfold logStep
    rw [hen]
    rfl

/-- Witness for C2: two messages, 2 and 3 bytes long, on a fresh
default-size logger. -/
theorem C2_sequential_writes_witness :
    (catMsg [⟨2, fun i => 65 + i⟩, ⟨3, fun i => 70 + i⟩]).len ≤
      (builderBuild ⟨0, .info, false⟩).cap ∧
    (∃ st1, runWrites (builderBuild ⟨0, .info, false⟩)
        [⟨2, fun i => 65 + i⟩, ⟨3, fun i => 70 + i⟩] = some st1 ∧
      st1.offset = (catMsg [⟨2, fun i => 65 + i⟩, ⟨3, fun i => 70 + i⟩]).len ∧
      (∀ p, p < (catMsg [⟨2, fun i => 65 + i⟩, ⟨3, fun i => 70 + i⟩]).len →
        st1.payload p =
          (catMsg [⟨2, fun i => 65 + i⟩, ⟨3, fun i => 70 + i⟩]).byte p)) :=
  ⟨by decide,
   (C2_sequential_writes ⟨0, .info, false⟩
      [⟨2, fun i => 65 + i⟩, ⟨3, fun i => 70 + i⟩] (by decide)).1⟩

/-- Claim C3 (amended): a single write from a fresh offset of a message
longer than the capacity but shorter than twice the capacity leaves the
payload region containing exactly the last `cap` bytes of the message —
byte `j` of the message at ring position `j % cap` for every
`len - cap ≤ j < len` — and the header offset equals `len % cap`. For
messages of length at least `2 * cap` the retained middle bytes come from
the first lap, not the last one (see the counterexample). -/
theorem C3_oversized_message (st : LoggerState) (m : Msg)
    (h0 : st.offset = 0) (h1 : st.cap < m.len) (h2 : m.len < 2 * st.cap) :
    ∃ st1, writeBytes st m = some st1 ∧
      st1.offset = m.len % st.cap ∧
      (∀ j, m.len - st.cap ≤ j → j < m.len →
        st1.payload (j % st.cap) = m.byte j) := by
  obtain ⟨c, o, f⟩ := st
  dsimp only at h0 h1 h2 ⊢
  subst h0
  have hcap : 0 < c := by omega
  have hleft : (m.len - c) % c = m.len - c := Nat.mod_eq_of_lt (by omega)
  refine ⟨_, writeBytes_wrap ⟨c, 0, f⟩ m (Nat.zero_le c) hcap
    (show c < 0 + m.len by omega), ?_, ?_⟩
  · exact (Nat.mod_eq_sub_mod (Nat.le_of_lt h1)).symm
  · intro j hj1 hj2
    by_cases hc : j < c
    · rw [Nat.mod_eq_of_lt hc]
      exact (writeRange_out (writeRange f 0 c m.byte) 0 ((m.len - c) % c)
        (fun i => m.byte (m.len - (m.len - c) % c + i)) j
        (by rw [hleft]; omega)).trans
        (writeRange_in f 0 c m.byte j (Nat.zero_le j) (by omega))
    · have hq : j % c = j - c := by
        rw [Nat.mod_eq_sub_mod (by omega)]
        exact Nat.mod_eq_of_lt (by omega)
      rw [hq]
      exact (writeRange_in (writeRange f 0 c m.byte) 0 ((m.len - c) % c)
        (fun i => m.byte (m.len - (m.len - c) % c + i)) (j - c)
        (Nat.zero_le _) (by rw [hleft]; omega)).trans
        (congrArg m.byte (by rw [hleft]; omega))

/-- Witness for C3 (amended): a 524300-byte message into a fresh
default-size (524288-byte) ring. -/
theorem C3_oversized_message_witness :
    (0 : Nat) = 0 ∧ 524288 < 524300 ∧ 524300 < 2 * 524288 ∧
    (∃ st1, writeBytes ⟨524288, 0, fun _ => 0⟩ ⟨524300, fun j => j % 256⟩ =
        some st1 ∧
      st1.offset = 524300 % 524288 ∧
      (∀ j, 524300 - 524288 ≤ j → j < 524300 →
        st1.payload (j % 524288) = (⟨524300, fun j => j % 256⟩ : Msg).byte j)) :=
  ⟨rfl, by decide, by decide,
   C3_oversized_message ⟨524288, 0, fun _ => 0⟩ ⟨524300, fun j => j % 256⟩
     rfl (by decide) (by decide)⟩

/-- Counterexample to claim C3 as stated: a single 1048576-byte message
(twice the default 524288-byte capacity) written to a fresh ring. The
claim requires ring position `j % cap` to hold message byte `j` for every
`j` in the last `cap` indices; at `j = 524288` that position is 0, which
holds message byte 0 (value `0`) from the first lap, not message byte
524288 (value `524288 % 251 = 200`). The offset does equal `len % cap`. -/
theorem C3_counterexample :
    (writeBytes ⟨524288, 0, fun _ => 0⟩ ⟨1048576, fun j => j % 251⟩).map
        (fun st1 => st1.payload (524288 % 524288)) = some 0 ∧
    (writeBytes ⟨524288, 0, fun _ => 0⟩ ⟨1048576, fun j => j % 251⟩).map
        (fun st1 => st1.offset) = some (1048576 % 524288) ∧
    (524288 : Nat) < 1048576 ∧ (1048576 : Nat) - 524288 ≤ 524288 ∧
    (524288 : Nat) < 1048576 ∧
    (⟨1048576, fun j => j % 251⟩ : Msg).byte 524288 = 200 ∧
    (0 : Nat) ≠ 200 := by
  refine ⟨?_, ?_, by decide, by decide, by decide, by decide, by decide⟩
  · rw [writeBytes_wrap ⟨524288, 0, fun _ => 0⟩ ⟨1048576, fun j => j % 251⟩
      (by decide) (by decide) (by decide)]
    rfl
  · rw [writeBytes_wrap ⟨524288, 0, fun _ => 0⟩ ⟨1048576, fun j => j % 251⟩
      (by decide) (by decide) (by decide)]
    rfl

/-- Claim C6 (amended): the byte sequence written for an accepted record
reproduces exactly the format `[<duration-since-epoch> <thread-id>
<level-tag> <file:line-or-empty> <target>] <message>` — a single closing
bracket, after the target — with the level tag E, W, I, D or T for
error/warn/info/debug/trace, and a trailing newline appended only if the
message does not already end with one. -/
theorem C6_record_format (dur tid fileline target msg : List Char)
    (l : LogLevel) :
    formatRecord dur tid fileline target msg l =
      formatCore dur tid (level_info l) fileline target msg ++
        (if msg.getLast? = some '\n' then [] else ['\n']) ∧
    level_info .error = ['E'] ∧ level_info .warn = ['W'] ∧
    level_info .info = ['I'] ∧ level_info .debug = ['D'] ∧
    level_info .trace = ['T'] := by
  refine ⟨?_, rfl, rfl, rfl, rfl, rfl⟩
  have hlast :
      ((formatCore dur tid (level_info l) fileline target msg).getLast? =
        some '\n') ↔ msg.getLast? = some '\n' := by
    unfold formatCore
    cases msg with
    | nil =>
      rw [List.append_nil, ← List.head?_reverse]
      simp
    | cons c cs =>
      rw [getLast?_append_right _ _ (List.cons_ne_nil c cs)]
  unfold formatRecord ensureNewline
  by_cases hnl : msg.getLast? = some '\n'
  · rw [if_pos (hlast.mpr hnl), if_pos hnl, List.append_nil]
  · rw [if_neg (fun hcon => hnl (hlast.mp hcon)), if_neg hnl]

/-- Counterexample to claim C6 as stated: the spec's format string places
a `]` directly after the duration field, but the code's template places a
space there. For the record with duration `1s`, thread id `42`, level
Error, no source location and target `t`, the code writes
`[1s 42 E  t] hi` plus newline, not `[1s] 42 E  t] hi` plus newline. -/
theorem C6_counterexample :
    formatRecord ['1', 's'] ['4', '2'] (filelineOf none none) ['t']
        ['h', 'i'] .error ≠
      specFormatRecord ['1', 's'] ['4', '2'] (filelineOf none none) ['t']
        ['h', 'i'] .error := by decide

end Mmlog
